import Mathlib

/-!
Shallow embedding of the tadpole crawler and processing pipeline
(settings.py, helpers.py, main.py, process_pipeline.py) together with
theorems about its filtering, deduplication, scoring and fetch-retry
behaviour.

Modelling conventions:
* Python dicts holding JSON records are association lists from string keys
  to a value type Val; dict assignment replaces the value in place when the
  key is present and appends otherwise.
* The SHA-256 digest used by process_pipeline.calculate_content_hash is an
  abstract parameter (hash : String -> String); theorems that depend on
  collision freedom take Function.Injective hash as a hypothesis.
* helpers.sanitize_content is an external collaborator and is a parameter
  (san : String -> Val).
* Python float arithmetic is modelled over the rationals; Python round
  (banker rounding) is modelled as round-half-up; no statement proved here
  depends on tie behaviour.
* Python str.splitlines is modelled for the newline terminator, the only
  terminator relevant to the decoded text the pipeline handles.
* The network seen by helpers.make_api_request is modelled as a script: a
  list of ApiEvent, one per attempted HTTP request, consumed left to right.
-/

namespace Tadpole

/-- settings.py: MIN_FILE_LINES. -/
def MIN_FILE_LINES : Nat := 10

/-- settings.py: MAX_FILE_SIZE (1 MB limit). -/
def MAX_FILE_SIZE : Nat := 1024 * 1024

/-- settings.py: DEDUPLICATION_SCOPE, the value configured in the repo. -/
def DEDUPLICATION_SCOPE : String := "file"

/-- settings.py: RATE_LIMIT_SLEEP_BUFFER. -/
def RATE_LIMIT_SLEEP_BUFFER : ℚ := 5

/-- settings.py: TARGET_EXTENSIONS. -/
def TARGET_EXTENSIONS : List String := [".py"]

/-- settings.py: EXCLUDED_DIRS. -/
def EXCLUDED_DIRS : List String :=
  ["site-packages", "node_modules", "vendor", ".git", "dist", "build",
   "__pycache__", "test", "tests", "example", "examples", "doc", "docs",
   ".venv", "env", "venv"]

/-- JSON-like values stored in record fields. vannot holds the annotations
dict of score_and_annotate: optional comment_ratio, optional code_density,
and has_tests_keyword. -/
inductive Val : Type where
  | vstr : String → Val
  | vnat : Nat → Val
  | vrat : ℚ → Val
  | vbool : Bool → Val
  | vannot : Option ℚ → Option ℚ → Bool → Val
  | vnull : Val
deriving DecidableEq

/-- A JSON record (Python dict) as an association list in insertion order. -/
abbrev Dict := List (String × Val)

/-- Python dict lookup record.get(k): first binding of the key, if any. -/
def Dict.get : Dict → String → Option Val
  | [], _ => none
  | p :: t, k => if p.1 = k then some p.2 else Dict.get t k

/-- Python dict assignment record[k] = v: replace the value in place when
the key is present, append a new binding otherwise. -/
def Dict.set : Dict → String → Val → Dict
  | [], k, v => [(k, v)]
  | p :: t, k, v => if p.1 = k then (k, v) :: t else p :: Dict.set t k v

/-- content.count of the newline character (process_pipeline.py line 33). -/
def countNewlines (s : String) : Nat := s.toList.countP (fun c => c == '\n')

/-- Python str.lower, character by character. -/
def lowerStr (s : String) : String := String.mk (s.toList.map Char.toLower)

/-- Helper for Python substring membership over character lists. -/
def strContainsAux (sub : List Char) : List Char → Bool
  | [] => sub.isEmpty
  | c :: cs => sub.isPrefixOf (c :: cs) || strContainsAux sub cs

/-- Python substring membership: sub in s. -/
def strContains (s sub : String) : Bool := strContainsAux sub.toList s.toList

/-- Python str.endswith, over character lists. -/
def strEndsWith (s suffix : String) : Bool := suffix.toList.isSuffixOf s.toList

/-- Helper for splitting a string at a separator character. -/
def splitOnCharAux (c : Char) : List Char → List Char → List String
  | [], acc => [String.mk acc.reverse]
  | x :: xs, acc =>
    if x = c then String.mk acc.reverse :: splitOnCharAux c xs []
    else splitOnCharAux c xs (x :: acc)

/-- Python str.split on a one-character separator: "a/b" gives two parts,
"" gives one empty part, a trailing separator gives a trailing empty
part. -/
def splitOnChar (s : String) (c : Char) : List String :=
  splitOnCharAux c s.toList []

/-- Python str.splitlines for newline-terminated text: "a\nb\n" and "a\nb"
both split to two lines, "" splits to no line. -/
def splitlines (s : String) : List String :=
  if s = "" then []
  else if strEndsWith s "\n" then (splitOnChar s '\n').dropLast
  else splitOnChar s '\n'

/-- record.get("content") with Python truthiness in filter_and_sanitize and
the default "" used by run_pipeline and score_and_annotate: an absent, null
or empty content field reads as the empty string. -/
def contentOf (r : Dict) : String :=
  match Dict.get r "content" with
  | some (Val.vstr s) => s
  | _ => ""

/-- process_pipeline.filter_and_sanitize lines 54-61: attach the content
hash, the sanitization findings and the line count to the record. -/
def annotateRecord (san : String → Val) (record : Dict)
    (contentHash : String) (lineCount : Nat) : Dict :=
  Dict.set
    (Dict.set
      (Dict.set record "processed_content_hash" (Val.vstr contentHash))
      "sanitization_findings" (san (contentOf record)))
    "line_count" (Val.vnat lineCount)

/-- process_pipeline.filter_and_sanitize: filtering, sanitization and exact
deduplication. Returns the processed record (none when the record is
dropped) together with the resulting seen set; the fingerprint is inserted
only when the configured scope is "file". -/
def filter_and_sanitize (hash : String → String) (san : String → Val)
    (scope : String) (record : Dict) (seen : List String) :
    Option Dict × List String :=
  let content := contentOf record
  if content = "" then (none, seen)
  else
    let lineCount := countNewlines content + 1
    if lineCount < MIN_FILE_LINES then (none, seen)
    else
      let contentHash := hash content
      if contentHash ∈ seen then (none, seen)
      else
        let seenOut := if scope = "file" then contentHash :: seen else seen
        (some (annotateRecord san record contentHash lineCount), seenOut)

/-- Keyword list of process_pipeline.score_and_annotate line 99. -/
def TEST_KEYWORDS : List String :=
  ["import unittest", "import pytest", " test", " assert "]

/-- Clamp to the unit interval: max(0.0, min(1.0, s)). -/
def clamp01 (q : ℚ) : ℚ := max 0 (min 1 q)

/-- Python round(x, 3): three decimal places, modelled round-half-up. -/
def round3 (q : ℚ) : ℚ := ((⌊q * 1000 + 1 / 2⌋ : ℤ) : ℚ) / 1000

/-- Lines of the content, per score_and_annotate line 75. -/
def linesOf (content : String) : List String := splitlines content

/-- Non-blank lines not starting with the comment mark, line 76. -/
def codeLinesOf (content : String) : List String :=
  (splitlines content).filter
    (fun l => !(l.trim == "") && !(l.trim.startsWith "#"))

/-- Lines whose stripped form starts with the comment mark, line 79. -/
def commentLinesOf (content : String) : List String :=
  (splitlines content).filter (fun l => l.trim.startsWith "#")

/-- Test-keyword detection of score_and_annotate lines 97-100. -/
def hasTestKw (content : String) : Bool :=
  TEST_KEYWORDS.any (fun kw => strContains (lowerStr content) kw)

/-- The accumulated raw score of score_and_annotate before clamping:
density times one half, plus one fifth for a comment ratio strictly between
one twentieth and three tenths, plus three tenths for a test keyword; with
zero total lines only the keyword bonus contributes. -/
def rawScore (content : String) : ℚ :=
  let total := (splitlines content).length
  let densityPart : ℚ :=
    if 0 < total then ((codeLinesOf content).length : ℚ) / total * (1 / 2) else 0
  let ratioPart : ℚ :=
    if 0 < total ∧ 1 / 20 < ((commentLinesOf content).length : ℚ) / total ∧
        ((commentLinesOf content).length : ℚ) / total < 3 / 10 then 1 / 5 else 0
  let kwPart : ℚ := if hasTestKw content then 3 / 10 else 0
  densityPart + ratioPart + kwPart

/-- process_pipeline.score_and_annotate: scoring heuristics and
annotations. Sets quality_score (clamped then rounded) and the annotations
value; with zero total lines the ratio and density annotations are absent. -/
def score_and_annotate (record : Dict) : Dict :=
  let content := contentOf record
  let total := (splitlines content).length
  let annotations := Val.vannot
    (if 0 < total then
      some (round3 (((commentLinesOf content).length : ℚ) / total)) else none)
    (if 0 < total then
      some (round3 (((codeLinesOf content).length : ℚ) / total)) else none)
    (hasTestKw content)
  Dict.set
    (Dict.set record "quality_score" (Val.vrat (round3 (clamp01 (rawScore content)))))
    "annotations" annotations

/-- A git tree entry as consumed by helpers.is_file_relevant. -/
structure FileInfo where
  path : String
  size : Option Nat
  ftype : String
deriving DecidableEq

/-- helpers.is_file_relevant: keep blobs of size in (0, MAX_FILE_SIZE] with
a target extension and no excluded directory name among the path segments
(the source checks all segments and then, redundantly, all but the last). -/
def is_file_relevant (f : FileInfo) : Bool :=
  let path := lowerStr f.path
  if f.ftype ≠ "blob" then false
  else
    match f.size with
    | none => false
    | some size =>
      if size = 0 ∨ size > MAX_FILE_SIZE then false
      else if !(TARGET_EXTENSIONS.any (fun ext => strEndsWith path ext)) then false
      else
        let parts := splitOnChar path '/'
        if parts.any (fun part => EXCLUDED_DIRS.contains part) then false
        else if parts.dropLast.any (fun part => EXCLUDED_DIRS.contains part) then
          false
        else true

/-- Counters and accumulators of the stage-1 loop of
process_pipeline.run_pipeline (lines 125-163). -/
structure PipeState where
  processed : List Dict
  seen : List String
  records_read : Nat
  records_filtered : Nat
  records_deduplicated : Nat
deriving DecidableEq

/-- The state at the start of run_pipeline: everything empty. -/
def initState : PipeState := ⟨[], [], 0, 0, 0⟩

/-- One iteration of the stage-1 loop of run_pipeline over one input line.
A line is none when json.loads raises (the line is skipped, only
records_read moves) and some record otherwise. On a drop, the loop
recomputes the hash of the content (default "") and attributes the drop to
deduplication exactly when that hash sits in the seen set. -/
def processLine (hash : String → String) (san : String → Val) (scope : String)
    (st : PipeState) (line : Option Dict) : PipeState :=
  let st1 := { st with records_read := st.records_read + 1 }
  match line with
  | none => st1
  | some raw =>
    match filter_and_sanitize hash san scope raw st1.seen with
    | (some pr, seenOut) =>
      { st1 with processed := st1.processed ++ [pr], seen := seenOut }
    | (none, seenOut) =>
      let tempHash := hash (contentOf raw)
      if tempHash ∈ seenOut then
        { st1 with seen := seenOut,
                   records_deduplicated := st1.records_deduplicated + 1 }
      else
        { st1 with seen := seenOut,
                   records_filtered := st1.records_filtered + 1 }

/-- Stage 1 of run_pipeline over the whole input stream, starting from the
empty state. -/
def runStage1 (hash : String → String) (san : String → Val) (scope : String)
    (lines : List (Option Dict)) : PipeState :=
  lines.foldl (processLine hash san scope) initState

/-- One scripted outcome for one attempted HTTP request inside
helpers.make_api_request: an HTTP response with status, the
X-RateLimit-Remaining header (as the integer the code parses, when
present), the X-RateLimit-Reset epoch, whether the Content-Type is JSON
and an abstract body; or a connection error; or a timeout. -/
inductive ApiEvent : Type where
  | http (status : Nat) (remaining : Option Int) (reset : Int)
      (ctJson : Bool) (body : Nat) : ApiEvent
  | connError : ApiEvent
  | timeout : ApiEvent
deriving DecidableEq

/-- Result of make_api_request over a script: the returned body (none for
every failure path), the number of requests attempted, and the sleeps the
rate-limit handling performed, in order. -/
structure FetchResult where
  result : Option Nat
  attempts : Nat
  sleeps : List ℚ
deriving DecidableEq

/-- The sleep the rate-limit handling computes (helpers.py lines 31-34 and
74-77): max(0, reset - now) + RATE_LIMIT_SLEEP_BUFFER. -/
def sleepFor (reset : Int) (now : ℚ) : ℚ :=
  max 0 ((reset : ℚ) - now) + RATE_LIMIT_SLEEP_BUFFER

/-- Whether an event is a response whose rate-limit headers report zero
remaining quota (the condition of helpers.py line 29). -/
def zeroQuota : ApiEvent → Bool
  | ApiEvent.http _ remaining _ _ _ => remaining == some 0
  | _ => false

/-- helpers.make_api_request over a response script. A response with a
zero X-RateLimit-Remaining header triggers, whatever the status, a sleep
of sleepFor followed by a recursive retry consuming the rest of the
script. Otherwise a status of at least 400 raises: 403 re-checks the
headers for a zero quota (unreachable here, faithfully kept) and sleeps
without retrying, every other error returns none; a good status returns
the body when the Content-Type is JSON and none otherwise. Connection
errors and timeouts return none with no retry. Time advances by the
performed sleep. -/
def make_api_request (now : ℚ) : List ApiEvent → FetchResult
  | [] => ⟨none, 0, []⟩
  | ApiEvent.connError :: _ => ⟨none, 1, []⟩
  | ApiEvent.timeout :: _ => ⟨none, 1, []⟩
  | ApiEvent.http status remaining reset ctJson body :: rest =>
    if remaining = some 0 then
      let s := sleepFor reset now
      let r := make_api_request (now + s) rest
      ⟨r.result, r.attempts + 1, s :: r.sleeps⟩
    else if 400 ≤ status then
      if status = 403 ∧ remaining = some 0 then ⟨none, 1, [sleepFor reset now]⟩
      else ⟨none, 1, []⟩
    else if ctJson then ⟨some body, 1, []⟩
    else ⟨none, 1, []⟩

/-- The control paths of filter_and_sanitize as a relation from a record
and a seen set to the returned pair: no content, too few lines, duplicate
fingerprint, or acceptance. -/
inductive FilterStep (hash : String → String) (san : String → Val)
    (scope : String) : Dict → List String → Option Dict × List String → Prop where
  | noContent (r : Dict) (seen : List String) :
      contentOf r = "" → FilterStep hash san scope r seen (none, seen)
  | fewLines (r : Dict) (seen : List String) :
      contentOf r ≠ "" → countNewlines (contentOf r) + 1 < MIN_FILE_LINES →
      FilterStep hash san scope r seen (none, seen)
  | dup (r : Dict) (seen : List String) :
      contentOf r ≠ "" → ¬ countNewlines (contentOf r) + 1 < MIN_FILE_LINES →
      hash (contentOf r) ∈ seen →
      FilterStep hash san scope r seen (none, seen)
  | accept (r : Dict) (seen : List String) :
      contentOf r ≠ "" → ¬ countNewlines (contentOf r) + 1 < MIN_FILE_LINES →
      hash (contentOf r) ∉ seen →
      FilterStep hash san scope r seen
        (some (annotateRecord san r (hash (contentOf r))
          (countNewlines (contentOf r) + 1)),
         if scope = "file" then hash (contentOf r) :: seen else seen)

/-- One iteration of the stage-1 loop of run_pipeline, as a relation. -/
inductive StageStep (hash : String → String) (san : String → Val)
    (scope : String) : PipeState → Option Dict → PipeState → Prop where
  | junk (st : PipeState) :
      StageStep hash san scope st none
        { st with records_read := st.records_read + 1 }
  | keep (st : PipeState) (raw pr : Dict) (seenOut : List String) :
      FilterStep hash san scope raw st.seen (some pr, seenOut) →
      StageStep hash san scope st (some raw)
        { st with records_read := st.records_read + 1,
                  processed := st.processed ++ [pr], seen := seenOut }
  | dropDup (st : PipeState) (raw : Dict) (seenOut : List String) :
      FilterStep hash san scope raw st.seen (none, seenOut) →
      hash (contentOf raw) ∈ seenOut →
      StageStep hash san scope st (some raw)
        { st with records_read := st.records_read + 1, seen := seenOut,
                  records_deduplicated := st.records_deduplicated + 1 }
  | dropFiltered (st : PipeState) (raw : Dict) (seenOut : List String) :
      FilterStep hash san scope raw st.seen (none, seenOut) →
      hash (contentOf raw) ∉ seenOut →
      StageStep hash san scope st (some raw)
        { st with records_read := st.records_read + 1, seen := seenOut,
                  records_filtered := st.records_filtered + 1 }

/-- The stage-1 loop of run_pipeline over a list of input lines, as the
reflexive-transitive iteration of StageStep. -/
inductive StageRun (hash : String → String) (san : String → Val)
    (scope : String) : PipeState → List (Option Dict) → PipeState → Prop where
  | nil (st : PipeState) : StageRun hash san scope st [] st
  | cons (st st1 st2 : PipeState) (l : Option Dict) (ls : List (Option Dict)) :
      StageStep hash san scope st l st1 → StageRun hash san scope st1 ls st2 →
      StageRun hash san scope st (l :: ls) st2

/-- The fingerprint field the pipeline attaches to kept records. -/
def fpOf (r : Dict) : Option Val := Dict.get r "processed_content_hash"

/-- Specification-side classification of every input line by what stage 1
actually does with it, threading the seen set exactly as global-scope
deduplication does: (kept, filtered, deduplicated, junk) counts. -/
def classifyCounts (hash : String → String) :
    List (Option Dict) → List String → Nat × Nat × Nat × Nat
  | [], _ => (0, 0, 0, 0)
  | none :: ls, seen =>
    let c := classifyCounts hash ls seen
    (c.1, c.2.1, c.2.2.1, c.2.2.2 + 1)
  | some r :: ls, seen =>
    if contentOf r = "" ∨ countNewlines (contentOf r) + 1 < MIN_FILE_LINES then
      let c := classifyCounts hash ls seen
      (c.1, c.2.1 + 1, c.2.2.1, c.2.2.2)
    else if hash (contentOf r) ∈ seen then
      let c := classifyCounts hash ls seen
      (c.1, c.2.1, c.2.2.1 + 1, c.2.2.2)
    else
      let c := classifyCounts hash ls (hash (contentOf r) :: seen)
      (c.1 + 1, c.2.1, c.2.2.1, c.2.2.2)

/-- Every fingerprint in the seen set is the hash of some accepted
content: nonempty and with enough lines. -/
def SeenInv (hash : String → String) (seen : List String) : Prop :=
  ∀ h ∈ seen, ∃ c : String,
    c ≠ "" ∧ MIN_FILE_LINES ≤ countNewlines c + 1 ∧ h = hash c

/-- A line that run_pipeline would parse and that passes the content and
line-count filters of filter_and_sanitize. -/
def passesFilters (l : Option Dict) : Bool :=
  match l with
  | none => false
  | some r =>
    !(contentOf r == "") &&
      decide (MIN_FILE_LINES ≤ countNewlines (contentOf r) + 1)

/-- The identity fingerprint, used as a concrete injective digest in
witnesses and counterexamples. -/
def idHash : String → String := fun s => s

/-- A concrete sanitizer for witnesses and counterexamples. -/
def nullSan : String → Val := fun _ => Val.vnull

/-- Nine newline characters: MIN_FILE_LINES - 1 newlines, ten lines. -/
def nineNl : String := "\n\n\n\n\n\n\n\n\n"

/-- Eight newline characters: MIN_FILE_LINES - 2 newlines, nine lines. -/
def eightNl : String := "\n\n\n\n\n\n\n\n"

/-- Ten one-character lines (nine newlines). -/
def tenLines : String := "a\nb\nc\nd\ne\nf\ng\nh\ni\nj"

/-- A parsed input line whose record passes every filter. -/
def dupLine : Option Dict := some [("content", Val.vstr tenLines)]

/-- A response reporting zero remaining rate-limit quota. -/
def zeroQuotaEvt : ApiEvent := ApiEvent.http 200 (some 0) 0 true 0

/-- A successful JSON response with plenty of remaining quota. -/
def okEvt : ApiEvent := ApiEvent.http 200 (some 5) 0 true 7

/-- A record that already carries a quality_score field. -/
def qsDict : Dict := [("content", Val.vstr ""), ("quality_score", Val.vnat 7)]

theorem Dict.get_set_self (d : Dict) (k : String) (v : Val) :
    Dict.get (Dict.set d k v) k = some v := by
  induction d with
  | nil => simp [Dict.get, Dict.set]
  | cons p t ih =>
    by_cases h : p.1 = k
    · simp [Dict.set, Dict.get, h]
    · simp [Dict.set, Dict.get, h, ih]

theorem Dict.get_set_other (d : Dict) (k j : String) (v : Val) (h : j ≠ k) :
    Dict.get (Dict.set d k v) j = Dict.get d j := by
  have hkj : ¬ k = j := fun hh => h hh.symm
  induction d with
  | nil => simp [Dict.get, Dict.set, hkj]
  | cons p t ih =>
    by_cases hp : p.1 = k
    · have hpj : ¬ p.1 = j := by rw [hp]; exact hkj
      simp [Dict.set, Dict.get, hp, hpj, hkj]
    · simp [Dict.set, Dict.get, hp, ih]

theorem fpOf_annotateRecord (san : String → Val) (r : Dict) (h : String) (n : Nat) :
    fpOf (annotateRecord san r h n) = some (Val.vstr h) := by
  unfold fpOf annotateRecord
  rw [Dict.get_set_other _ _ _ _ (by decide), Dict.get_set_other _ _ _ _ (by decide),
      Dict.get_set_self]

theorem annotate_get_other (san : String → Val) (r : Dict) (h : String) (n : Nat)
    (k : String) (h1 : k ≠ "processed_content_hash")
    (h2 : k ≠ "sanitization_findings") (h3 : k ≠ "line_count") :
    Dict.get (annotateRecord san r h n) k = Dict.get r k := by
  unfold annotateRecord
  rw [Dict.get_set_other _ _ _ _ h3, Dict.get_set_other _ _ _ _ h2,
      Dict.get_set_other _ _ _ _ h1]

theorem filter_eq_noContent (hash : String → String) (san : String → Val)
    (scope : String) (r : Dict) (seen : List String) (h : contentOf r = "") :
    filter_and_sanitize hash san scope r seen = (none, seen) := by
  simp [filter_and_sanitize, h]

theorem filter_eq_fewLines (hash : String → String) (san : String → Val)
    (scope : String) (r : Dict) (seen : List String) (h1 : contentOf r ≠ "")
    (h2 : countNewlines (contentOf r) + 1 < MIN_FILE_LINES) :
    filter_and_sanitize hash san scope r seen = (none, seen) := by
  simp [filter_and_sanitize, h1, h2]

theorem filter_eq_dup (hash : String → String) (san : String → Val)
    (scope : String) (r : Dict) (seen : List String) (h1 : contentOf r ≠ "")
    (h2 : ¬ countNewlines (contentOf r) + 1 < MIN_FILE_LINES)
    (h3 : hash (contentOf r) ∈ seen) :
    filter_and_sanitize hash san scope r seen = (none, seen) := by
  simp [filter_and_sanitize, h1, h2, h3]

theorem filter_eq_accept (hash : String → String) (san : String → Val)
    (scope : String) (r : Dict) (seen : List String) (h1 : contentOf r ≠ "")
    (h2 : ¬ countNewlines (contentOf r) + 1 < MIN_FILE_LINES)
    (h3 : hash (contentOf r) ∉ seen) :
    filter_and_sanitize hash san scope r seen =
      (some (annotateRecord san r (hash (contentOf r))
        (countNewlines (contentOf r) + 1)),
       if scope = "file" then hash (contentOf r) :: seen else seen) := by
  simp [filter_and_sanitize, h1, h2, h3]

theorem filterStep_total (hash : String → String) (san : String → Val)
    (scope : String) (r : Dict) (seen : List String) :
    FilterStep hash san scope r seen (filter_and_sanitize hash san scope r seen) := by
  by_cases h1 : contentOf r = ""
  · rw [filter_eq_noContent _ _ _ _ _ h1]
    exact FilterStep.noContent r seen h1
  · by_cases h2 : countNewlines (contentOf r) + 1 < MIN_FILE_LINES
    · rw [filter_eq_fewLines _ _ _ _ _ h1 h2]
      exact FilterStep.fewLines r seen h1 h2
    · by_cases h3 : hash (contentOf r) ∈ seen
      · rw [filter_eq_dup _ _ _ _ _ h1 h2 h3]
        exact FilterStep.dup r seen h1 h2 h3
      · rw [filter_eq_accept _ _ _ _ _ h1 h2 h3]
        exact FilterStep.accept r seen h1 h2 h3

theorem filterStep_eq (hash : String → String) (san : String → Val)
    (scope : String) (r : Dict) (seen : List String)
    (out : Option Dict × List String)
    (h : FilterStep hash san scope r seen out) :
    out = filter_and_sanitize hash san scope r seen := by
  cases h with
  | noContent h1 => rw [filter_eq_noContent _ _ _ _ _ h1]
  | fewLines h1 h2 => rw [filter_eq_fewLines _ _ _ _ _ h1 h2]
  | dup h1 h2 h3 => rw [filter_eq_dup _ _ _ _ _ h1 h2 h3]
  | accept h1 h2 h3 => rw [filter_eq_accept _ _ _ _ _ h1 h2 h3]

theorem processLine_none (hash : String → String) (san : String → Val)
    (scope : String) (st : PipeState) :
    processLine hash san scope st none =
      { st with records_read := st.records_read + 1 } := rfl

theorem processLine_keep (hash : String → String) (san : String → Val)
    (scope : String) (st : PipeState) (raw pr : Dict) (seenOut : List String)
    (h : filter_and_sanitize hash san scope raw st.seen = (some pr, seenOut)) :
    processLine hash san scope st (some raw) =
      { st with records_read := st.records_read + 1,
                processed := st.processed ++ [pr], seen := seenOut } := by
  simp only [processLine, h]

theorem processLine_dropDup (hash : String → String) (san : String → Val)
    (scope : String) (st : PipeState) (raw : Dict) (seenOut : List String)
    (h : filter_and_sanitize hash san scope raw st.seen = (none, seenOut))
    (hm : hash (contentOf raw) ∈ seenOut) :
    processLine hash san scope st (some raw) =
      { st with records_read := st.records_read + 1, seen := seenOut,
                records_deduplicated := st.records_deduplicated + 1 } := by
  simp only [processLine, h, if_pos hm]

theorem processLine_dropFiltered (hash : String → String) (san : String → Val)
    (scope : String) (st : PipeState) (raw : Dict) (seenOut : List String)
    (h : filter_and_sanitize hash san scope raw st.seen = (none, seenOut))
    (hm : hash (contentOf raw) ∉ seenOut) :
    processLine hash san scope st (some raw) =
      { st with records_read := st.records_read + 1, seen := seenOut,
                records_filtered := st.records_filtered + 1 } := by
  simp only [processLine, h, if_neg hm]

theorem stageStep_total (hash : String → String) (san : String → Val)
    (scope : String) (st : PipeState) (l : Option Dict) :
    StageStep hash san scope st l (processLine hash san scope st l) := by
  match l with
  | none => exact StageStep.junk st
  | some raw =>
    have hf := filterStep_total hash san scope raw st.seen
    rcases hout : filter_and_sanitize hash san scope raw st.seen with ⟨res, seenOut⟩
    rw [hout] at hf
    match res with
    | some pr =>
      rw [processLine_keep hash san scope st raw pr seenOut hout]
      exact StageStep.keep st raw pr seenOut hf
    | none =>
      by_cases hm : hash (contentOf raw) ∈ seenOut
      · rw [processLine_dropDup hash san scope st raw seenOut hout hm]
        exact StageStep.dropDup st raw seenOut hf hm
      · rw [processLine_dropFiltered hash san scope st raw seenOut hout hm]
        exact StageStep.dropFiltered st raw seenOut hf hm

theorem stageStep_eq (hash : String → String) (san : String → Val)
    (scope : String) (st : PipeState) (l : Option Dict) (st2 : PipeState)
    (h : StageStep hash san scope st l st2) :
    st2 = processLine hash san scope st l := by
  cases h with
  | junk => rw [processLine_none]
  | keep raw pr seenOut hf =>
    rw [processLine_keep hash san scope st raw pr seenOut
      (filterStep_eq _ _ _ _ _ _ hf).symm]
  | dropDup raw seenOut hf hm =>
    rw [processLine_dropDup hash san scope st raw seenOut
      (filterStep_eq _ _ _ _ _ _ hf).symm hm]
  | dropFiltered raw seenOut hf hm =>
    rw [processLine_dropFiltered hash san scope st raw seenOut
      (filterStep_eq _ _ _ _ _ _ hf).symm hm]

theorem stageRun_total (hash : String → String) (san : String → Val)
    (scope : String) (lines : List (Option Dict)) (st : PipeState) :
    StageRun hash san scope st lines
      (List.foldl (processLine hash san scope) st lines) := by
  induction lines generalizing st with
  | nil => exact StageRun.nil st
  | cons l ls ih =>
    rw [List.foldl_cons]
    exact StageRun.cons st _ _ l ls (stageStep_total hash san scope st l)
      (ih (processLine hash san scope st l))

theorem stageRun_eq (hash : String → String) (san : String → Val)
    (scope : String) (lines : List (Option Dict)) (st st2 : PipeState)
    (h : StageRun hash san scope st lines st2) :
    st2 = List.foldl (processLine hash san scope) st lines := by
  induction h with
  | nil st => rfl
  | cons st st1 st2 l ls hstep _ ih =>
    rw [List.foldl_cons, ← stageStep_eq hash san scope st l st1 hstep]
    exact ih

theorem stage1_inv (hash : String → String) (san : String → Val)
    (lines : List (Option Dict)) :
    ∀ st : PipeState,
      (∀ r ∈ st.processed, ∃ h ∈ st.seen, fpOf r = some (Val.vstr h)) →
      st.processed.Pairwise (fun a b => fpOf a ≠ fpOf b) →
      (∀ r ∈ (List.foldl (processLine hash san "file") st lines).processed,
          ∃ h ∈ (List.foldl (processLine hash san "file") st lines).seen,
          fpOf r = some (Val.vstr h)) ∧
        (List.foldl (processLine hash san "file") st lines).processed.Pairwise
          (fun a b => fpOf a ≠ fpOf b) := by
  induction lines with
  | nil => intro st h1 h2; exact ⟨h1, h2⟩
  | cons l ls ih =>
    intro st h1 h2
    rw [List.foldl_cons]
    match l with
    | none =>
      rw [processLine_none]
      exact ih _ h1 h2
    | some raw =>
      by_cases c1 : contentOf raw = ""
      · have hout := filter_eq_noContent hash san "file" raw st.seen c1
        by_cases hm : hash (contentOf raw) ∈ st.seen
        · rw [processLine_dropDup hash san "file" st raw st.seen hout hm]
          exact ih _ h1 h2
        · rw [processLine_dropFiltered hash san "file" st raw st.seen hout hm]
          exact ih _ h1 h2
      · by_cases c2 : countNewlines (contentOf raw) + 1 < MIN_FILE_LINES
        · have hout := filter_eq_fewLines hash san "file" raw st.seen c1 c2
          by_cases hm : hash (contentOf raw) ∈ st.seen
          · rw [processLine_dropDup hash san "file" st raw st.seen hout hm]
            exact ih _ h1 h2
          · rw [processLine_dropFiltered hash san "file" st raw st.seen hout hm]
            exact ih _ h1 h2
        · by_cases c3 : hash (contentOf raw) ∈ st.seen
          · have hout := filter_eq_dup hash san "file" raw st.seen c1 c2 c3
            rw [processLine_dropDup hash san "file" st raw st.seen hout c3]
            exact ih _ h1 h2
          · have hout := filter_eq_accept hash san "file" raw st.seen c1 c2 c3
            simp only [if_pos rfl] at hout
            rw [processLine_keep hash san "file" st raw _ _ hout]
            apply ih
            · intro r hr
              rcases List.mem_append.mp hr with hold | hnew
              · rcases h1 r hold with ⟨h, hh1, hh2⟩
                exact ⟨h, List.mem_cons_of_mem _ hh1, hh2⟩
              · rcases List.mem_singleton.mp hnew with rfl
                exact ⟨hash (contentOf raw), List.mem_cons_self _ _,
                  fpOf_annotateRecord san raw _ _⟩
            · rw [List.pairwise_append]
              refine ⟨h2, List.pairwise_singleton _ _, ?_⟩
              intro a ha b hb
              rcases List.mem_singleton.mp hb with rfl
              rcases h1 a ha with ⟨h, hh1, hh2⟩
              rw [hh2, fpOf_annotateRecord san raw _ _]
              intro heq
              have : h = hash (contentOf raw) := by
                injection heq with heq2
                injection heq2
              exact c3 (this ▸ hh1)

theorem stage1_noScope (hash : String → String) (san : String → Val)
    (scope : String) (hs : scope ≠ "file") (lines : List (Option Dict)) :
    ∀ st : PipeState, st.seen = [] →
      (List.foldl (processLine hash san scope) st lines).seen = [] ∧
        (List.foldl (processLine hash san scope) st lines).records_deduplicated =
          st.records_deduplicated ∧
        (List.foldl (processLine hash san scope) st lines).processed.length =
          st.processed.length + lines.countP passesFilters := by
  induction lines with
  | nil => intro st hseen; simp [hseen]
  | cons l ls ih =>
    intro st hseen
    rw [List.foldl_cons]
    have key : (processLine hash san scope st l).seen = [] ∧
        (processLine hash san scope st l).records_deduplicated =
          st.records_deduplicated ∧
        (processLine hash san scope st l).processed.length =
          st.processed.length + (if passesFilters l then 1 else 0) := by
      match l with
      | none =>
        rw [processLine_none]
        exact ⟨hseen, rfl, by simp [passesFilters]⟩
      | some raw =>
        by_cases c1 : contentOf raw = ""
        · have hout := filter_eq_noContent hash san scope raw st.seen c1
          have hm : hash (contentOf raw) ∉ st.seen := by rw [hseen]; simp
          rw [processLine_dropFiltered hash san scope st raw st.seen hout hm]
          refine ⟨hseen, rfl, ?_⟩
          simp [passesFilters, c1]
        · by_cases c2 : countNewlines (contentOf raw) + 1 < MIN_FILE_LINES
          · have hout := filter_eq_fewLines hash san scope raw st.seen c1 c2
            have hm : hash (contentOf raw) ∉ st.seen := by rw [hseen]; simp
            rw [processLine_dropFiltered hash san scope st raw st.seen hout hm]
            refine ⟨hseen, rfl, ?_⟩
            have hp : passesFilters (some raw) = false := by
              simp only [passesFilters, Bool.and_eq_false_iff]
              right
              simpa using c2
            simp [hp]
          · have c3 : hash (contentOf raw) ∉ st.seen := by rw [hseen]; simp
            have hout := filter_eq_accept hash san scope raw st.seen c1 c2 c3
            rw [if_neg hs] at hout
            rw [processLine_keep hash san scope st raw _ _ hout]
            refine ⟨hseen, rfl, ?_⟩
            have hp : passesFilters (some raw) = true := by
              simp only [passesFilters, Bool.and_eq_true]
              exact ⟨by simpa using c1, by simpa using c2⟩
            simp [hp]
    rcases key with ⟨k1, k2, k3⟩
    rcases ih (processLine hash san scope st l) k1 with ⟨e1, e2, e3⟩
    refine ⟨e1, by rw [e2, k2], ?_⟩
    rw [e3, k3, List.countP_cons]
    by_cases hp : passesFilters l
    · simp only [hp, if_true]
      omega
    · simp only [hp, Bool.false_eq_true, if_false]
      omega

theorem classify_sum (hash : String → String) (lines : List (Option Dict)) :
    ∀ seen : List String,
      (classifyCounts hash lines seen).1 + (classifyCounts hash lines seen).2.1 +
        (classifyCounts hash lines seen).2.2.1 +
        (classifyCounts hash lines seen).2.2.2 = lines.length := by
  induction lines with
  | nil => intro seen; rfl
  | cons l ls ih =>
    intro seen
    match l with
    | none =>
      have := ih seen
      simp only [classifyCounts, List.length_cons]
      omega
    | some r =>
      simp only [classifyCounts, List.length_cons]
      split_ifs with h1 h2
      · have := ih seen
        dsimp only
        omega
      · have := ih seen
        dsimp only
        omega
      · have := ih (hash (contentOf r) :: seen)
        dsimp only
        omega

theorem stage1_classified (hash : String → String) (san : String → Val)
    (hinj : Function.Injective hash) (lines : List (Option Dict)) :
    ∀ st : PipeState, SeenInv hash st.seen →
      (List.foldl (processLine hash san "file") st lines).processed.length =
          st.processed.length + (classifyCounts hash lines st.seen).1 ∧
        (List.foldl (processLine hash san "file") st lines).records_filtered =
          st.records_filtered + (classifyCounts hash lines st.seen).2.1 ∧
        (List.foldl (processLine hash san "file") st lines).records_deduplicated =
          st.records_deduplicated + (classifyCounts hash lines st.seen).2.2.1 ∧
        (List.foldl (processLine hash san "file") st lines).records_read =
          st.records_read + lines.length := by
  induction lines with
  | nil => intro st _; simp [classifyCounts]
  | cons l ls ih =>
    intro st hInv
    rw [List.foldl_cons]
    match l with
    | none =>
      have hInv2 : SeenInv hash (processLine hash san "file" st none).seen := by
        rw [processLine_none]; exact hInv
      rcases ih (processLine hash san "file" st none) hInv2 with ⟨e1, e2, e3, e4⟩
      refine ⟨?_, ?_, ?_, ?_⟩
      · rw [e1, processLine_none]
        simp only [classifyCounts]
      · rw [e2, processLine_none]
        simp only [classifyCounts]
      · rw [e3, processLine_none]
        simp only [classifyCounts]
      · rw [e4, processLine_none]
        simp only [List.length_cons]
        omega
    | some r =>
      by_cases hrej : contentOf r = "" ∨
          countNewlines (contentOf r) + 1 < MIN_FILE_LINES
      · have hout : filter_and_sanitize hash san "file" r st.seen =
            (none, st.seen) := by
          rcases hrej with h | h
          · exact filter_eq_noContent hash san "file" r st.seen h
          · by_cases h0 : contentOf r = ""
            · exact filter_eq_noContent hash san "file" r st.seen h0
            · exact filter_eq_fewLines hash san "file" r st.seen h0 h
        have hnot : hash (contentOf r) ∉ st.seen := by
          intro hmem
          rcases hInv _ hmem with ⟨c, hc1, hc2, hc3⟩
          have hcr : contentOf r = c := hinj hc3
          rcases hrej with h | h
          · exact hc1 (hcr ▸ h)
          · rw [← hcr] at hc2; omega
        have hpl := processLine_dropFiltered hash san "file" st r st.seen hout hnot
        have hInv2 : SeenInv hash (processLine hash san "file" st (some r)).seen := by
          rw [hpl]; exact hInv
        rcases ih (processLine hash san "file" st (some r)) hInv2 with ⟨e1, e2, e3, e4⟩
        refine ⟨?_, ?_, ?_, ?_⟩
        · rw [e1, hpl]
          simp only [classifyCounts]
          rw [if_pos hrej]
          try dsimp only
          try omega
        · rw [e2, hpl]
          simp only [classifyCounts]
          rw [if_pos hrej]
          try dsimp only
          try omega
        · rw [e3, hpl]
          simp only [classifyCounts]
          rw [if_pos hrej]
          try dsimp only
          try omega
        · rw [e4, hpl]
          simp only [List.length_cons]
          try dsimp only
          try omega
      · have hne : contentOf r ≠ "" := fun h => hrej (Or.inl h)
        have hlines : ¬ countNewlines (contentOf r) + 1 < MIN_FILE_LINES :=
          fun h => hrej (Or.inr h)
        by_cases hmem : hash (contentOf r) ∈ st.seen
        · have hout := filter_eq_dup hash san "file" r st.seen hne hlines hmem
          have hpl := processLine_dropDup hash san "file" st r st.seen hout hmem
          have hInv2 : SeenInv hash (processLine hash san "file" st (some r)).seen := by
            rw [hpl]; exact hInv
          rcases ih (processLine hash san "file" st (some r)) hInv2 with ⟨e1, e2, e3, e4⟩
          refine ⟨?_, ?_, ?_, ?_⟩
          · rw [e1, hpl]
            simp only [classifyCounts]
            rw [if_neg hrej, if_pos hmem]
            try dsimp only
            try omega
          · rw [e2, hpl]
            simp only [classifyCounts]
            rw [if_neg hrej, if_pos hmem]
            try dsimp only
            try omega
          · rw [e3, hpl]
            simp only [classifyCounts]
            rw [if_neg hrej, if_pos hmem]
            try dsimp only
            try omega
          · rw [e4, hpl]
            simp only [List.length_cons]
            try dsimp only
            try omega
        · have hout := filter_eq_accept hash san "file" r st.seen hne hlines hmem
          rw [if_pos rfl] at hout
          have hpl := processLine_keep hash san "file" st r _ _ hout
          have hInv2 : SeenInv hash (processLine hash san "file" st (some r)).seen := by
            rw [hpl]
            intro x hx
            rcases List.mem_cons.mp hx with hx1 | hx2
            · exact ⟨contentOf r, hne, by omega, hx1⟩
            · exact hInv x hx2
          rcases ih (processLine hash san "file" st (some r)) hInv2 with ⟨e1, e2, e3, e4⟩
          refine ⟨?_, ?_, ?_, ?_⟩
          · rw [e1, hpl]
            simp only [classifyCounts]
            rw [if_neg hrej, if_neg hmem]
            dsimp only
            simp only [List.length_append, List.length_singleton]
            omega
          · rw [e2, hpl]
            simp only [classifyCounts]
            rw [if_neg hrej, if_neg hmem]
            try dsimp only
            try omega
          · rw [e3, hpl]
            simp only [classifyCounts]
            rw [if_neg hrej, if_neg hmem]
            try dsimp only
            try omega
          · rw [e4, hpl]
            simp only [List.length_cons]
            try dsimp only
            try omega

theorem attempts_terminal (now : ℚ) (e : ApiEvent) (rest : List ApiEvent)
    (he : zeroQuota e = false) :
    (make_api_request now (e :: rest)).attempts = 1 := by
  match e with
  | ApiEvent.connError => rfl
  | ApiEvent.timeout => rfl
  | ApiEvent.http status remaining reset ct b =>
    have hrm : ¬ remaining = some 0 := by
      simpa [zeroQuota] using he
    simp only [make_api_request, if_neg hrm]
    split_ifs <;> rfl

theorem attempts_zeroQuotaStep (now : ℚ) (status : Nat) (reset : Int)
    (ct : Bool) (b : Nat) (rest : List ApiEvent) :
    make_api_request now (ApiEvent.http status (some 0) reset ct b :: rest) =
      ⟨(make_api_request (now + sleepFor reset now) rest).result,
       (make_api_request (now + sleepFor reset now) rest).attempts + 1,
       sleepFor reset now ::
         (make_api_request (now + sleepFor reset now) rest).sleeps⟩ := by
  simp only [make_api_request]
  rw [if_pos trivial]

theorem attempts_zeroRun (zs : List ApiEvent)
    (hz : ∀ z ∈ zs, zeroQuota z = true) (e : ApiEvent)
    (he : zeroQuota e = false) (rest : List ApiEvent) :
    ∀ now : ℚ,
      (make_api_request now (zs ++ e :: rest)).attempts = zs.length + 1 := by
  induction zs with
  | nil =>
    intro now
    simpa using attempts_terminal now e rest he
  | cons z zt ih =>
    intro now
    have hz1 : zeroQuota z = true := hz z (List.mem_cons_self _ _)
    match z with
    | ApiEvent.connError => simp [zeroQuota] at hz1
    | ApiEvent.timeout => simp [zeroQuota] at hz1
    | ApiEvent.http status remaining reset ct b =>
      have hrm : remaining = some 0 := by
        simpa [zeroQuota] using hz1
      subst hrm
      rw [List.cons_append, attempts_zeroQuotaStep]
      have ihh := ih (fun x hx => hz x (List.mem_cons_of_mem _ hx))
        (now + sleepFor reset now)
      simp only [ihh, List.length_cons]

theorem clamp01_mem (q : ℚ) : 0 ≤ clamp01 q ∧ clamp01 q ≤ 1 := by
  constructor
  · exact le_max_left 0 (min 1 q)
  · exact max_le (by norm_num) (min_le_left 1 q)

theorem round3_mem (q : ℚ) (h0 : 0 ≤ q) (h1 : q ≤ 1) :
    0 ≤ round3 q ∧ round3 q ≤ 1 := by
  unfold round3
  constructor
  · apply div_nonneg _ (by norm_num)
    have hfl : 0 ≤ ⌊q * 1000 + 1 / 2⌋ := by
      apply Int.floor_nonneg.mpr
      nlinarith
    exact_mod_cast hfl
  · rw [div_le_one (by norm_num)]
    have hlt : ⌊q * 1000 + 1 / 2⌋ < 1001 := by
      apply Int.floor_lt.mpr
      push_cast
      nlinarith
    have hle : ⌊q * 1000 + 1 / 2⌋ ≤ 1000 := by omega
    exact_mod_cast hle

theorem score_get_quality (r : Dict) :
    Dict.get (score_and_annotate r) "quality_score" =
      some (Val.vrat (round3 (clamp01 (rawScore (contentOf r))))) := by
  unfold score_and_annotate rawScore
  rw [Dict.get_set_other _ _ _ _ (by decide), Dict.get_set_self]

theorem score_get_annotations (r : Dict) :
    Dict.get (score_and_annotate r) "annotations" =
      some (Val.vannot
        (if 0 < (splitlines (contentOf r)).length then
          some (round3 (((commentLinesOf (contentOf r)).length : ℚ) /
            (splitlines (contentOf r)).length)) else none)
        (if 0 < (splitlines (contentOf r)).length then
          some (round3 (((codeLinesOf (contentOf r)).length : ℚ) /
            (splitlines (contentOf r)).length)) else none)
        (hasTestKw (contentOf r))) := by
  unfold score_and_annotate
  rw [Dict.get_set_self]

theorem score_get_other (r : Dict) (k : String) (h1 : k ≠ "quality_score")
    (h2 : k ≠ "annotations") :
    Dict.get (score_and_annotate r) k = Dict.get r k := by
  unfold score_and_annotate
  rw [Dict.get_set_other _ _ _ _ h2, Dict.get_set_other _ _ _ _ h1]

theorem rawScore_empty (content : String) (h : splitlines content = []) :
    rawScore content = if hasTestKw content then 3 / 10 else 0 := by
  unfold rawScore
  rw [h]
  norm_num

theorem filter_some_shape (hash : String → String) (san : String → Val)
    (scope : String) (r : Dict) (seen : List String) (out : Dict)
    (seenOut : List String)
    (h : filter_and_sanitize hash san scope r seen = (some out, seenOut)) :
    out = annotateRecord san r (hash (contentOf r))
      (countNewlines (contentOf r) + 1) := by
  by_cases c1 : contentOf r = ""
  · rw [filter_eq_noContent hash san scope r seen c1] at h
    simp at h
  · by_cases c2 : countNewlines (contentOf r) + 1 < MIN_FILE_LINES
    · rw [filter_eq_fewLines hash san scope r seen c1 c2] at h
      simp at h
    · by_cases c3 : hash (contentOf r) ∈ seen
      · rw [filter_eq_dup hash san scope r seen c1 c2 c3] at h
        simp at h
      · rw [filter_eq_accept hash san scope r seen c1 c2 c3] at h
        have := congrArg Prod.fst h
        simp only at this
        exact (Option.some.injEq _ _ ▸ this).symm

/-- Claim C1: with the deduplication scope configured as global
(DEDUPLICATION_SCOPE is "file"), no two records kept by the filter/dedup
stage share a content fingerprint: every accepted fingerprint enters the
seen set before later records are examined, so later records with the
same fingerprint are rejected. -/
theorem C1_global_scope_unique_fingerprints (hash : String → String)
    (san : String → Val) (lines : List (Option Dict)) :
    (runStage1 hash san DEDUPLICATION_SCOPE lines).processed.Pairwise
      (fun a b => fpOf a ≠ fpOf b) :=
  (stage1_inv hash san lines initState
    (fun r hr => absurd hr (List.not_mem_nil r)) List.Pairwise.nil).2

/-- Claim C2, counterexample: three zero-quota responses followed by a
success yield four attempts for one logical request, refuting the claimed
bound of at most two attempts under a sequence of zero-quota responses. -/
theorem C2_cex_unbounded_retries :
    ¬ (make_api_request 0
        [zeroQuotaEvt, zeroQuotaEvt, zeroQuotaEvt, okEvt]).attempts ≤ 2 := by
  decide

/-- Claim C2, amended: every zero-quota response makes the fetcher sleep
and retry once more, with no cap: a run of n zero-quota responses followed
by a response without the zero-quota signal results in exactly n + 1
attempts, so no failure is surfaced after a second zero-quota response. -/
theorem C2_amended_retry_per_zero_quota (now : ℚ) (zs : List ApiEvent)
    (hz : ∀ z ∈ zs, zeroQuota z = true) (e : ApiEvent)
    (he : zeroQuota e = false) (rest : List ApiEvent) :
    (make_api_request now (zs ++ e :: rest)).attempts = zs.length + 1 :=
  attempts_zeroRun zs hz e he rest now

/-- Claim C2, witness: the amended statement evaluated on three zero-quota
responses followed by a success gives four attempts. -/
theorem C2_amended_witness :
    (make_api_request 0
      ([zeroQuotaEvt, zeroQuotaEvt, zeroQuotaEvt] ++ okEvt :: [])).attempts =
      [zeroQuotaEvt, zeroQuotaEvt, zeroQuotaEvt].length + 1 :=
  C2_amended_retry_per_zero_quota 0 [zeroQuotaEvt, zeroQuotaEvt, zeroQuotaEvt]
    (by decide) okEvt (by decide) []

/-- Claim C3: a 403 response whose rate-limit headers report zero
remaining quota makes the fetcher sleep max(0, reset - now) + buffer and
then issue exactly one immediate retry; a 403 without the zero-quota
signal is a hard failure for that request, returned with no retry and no
sleep. -/
theorem C3_forbidden_handling (now : ℚ) (rm : Option Int) (reset : Int)
    (ctJson : Bool) (body : Nat) (rest : List ApiEvent) :
    (make_api_request now (ApiEvent.http 403 (some 0) reset ctJson body :: rest) =
      ⟨(make_api_request (now + sleepFor reset now) rest).result,
       (make_api_request (now + sleepFor reset now) rest).attempts + 1,
       sleepFor reset now ::
         (make_api_request (now + sleepFor reset now) rest).sleeps⟩) ∧
    (rm ≠ some 0 →
      make_api_request now (ApiEvent.http 403 rm reset ctJson body :: rest) =
        ⟨none, 1, []⟩) := by
  constructor
  · exact attempts_zeroQuotaStep now 403 reset ctJson body rest
  · intro hrm
    simp [make_api_request, hrm]

/-- Claim C3, witness: a 403 without the zero-quota header fails hard with
one attempt; a 403 with a zero-quota header and reset ten seconds ahead
sleeps fifteen seconds given the five-second buffer. -/
theorem C3_forbidden_witness :
    make_api_request 0 [ApiEvent.http 403 none 10 true 0] = ⟨none, 1, []⟩ ∧
    (make_api_request 0 [ApiEvent.http 403 (some 0) 10 true 0]).sleeps = [15] := by
  constructor
  · exact (C3_forbidden_handling 0 none 10 true 0 []).2 (by decide)
  · rw [(C3_forbidden_handling 0 (some 0) 10 true 0 []).1]
    have h15 : sleepFor 10 0 = 15 := by
      rw [sleepFor, RATE_LIMIT_SLEEP_BUFFER]
      rw [max_eq_right (by norm_num)]
      norm_num
    simp [h15, make_api_request]

/-- Claim C4: the quality score equals codeDensity times one half, plus
one fifth exactly when the comment ratio lies strictly between one
twentieth and three tenths, plus three tenths exactly when the content has
a test keyword, clamped to the unit interval and rounded to three
decimals, hence always within [0, 1]; with zero total lines the density
and ratio annotations are omitted and only the keyword bonus feeds the
score. -/
theorem C4_score_formula (r : Dict) :
    Dict.get (score_and_annotate r) "quality_score" =
      some (Val.vrat (round3 (clamp01 (rawScore (contentOf r))))) ∧
    0 ≤ round3 (clamp01 (rawScore (contentOf r))) ∧
    round3 (clamp01 (rawScore (contentOf r))) ≤ 1 ∧
    (splitlines (contentOf r) = [] →
      Dict.get (score_and_annotate r) "annotations" =
        some (Val.vannot none none (hasTestKw (contentOf r))) ∧
      rawScore (contentOf r) = if hasTestKw (contentOf r) then 3 / 10 else 0) := by
  refine ⟨score_get_quality r, ?_, ?_, ?_⟩
  · exact (round3_mem _ (clamp01_mem _).1 (clamp01_mem _).2).1
  · exact (round3_mem _ (clamp01_mem _).1 (clamp01_mem _).2).2
  · intro h
    refine ⟨?_, rawScore_empty _ h⟩
    rw [score_get_annotations r]
    simp [h]

/-- Claim C4, witness: the score facts evaluated at a record with empty
content: the annotations carry no density or ratio. -/
theorem C4_score_witness :
    Dict.get (score_and_annotate qsDict) "quality_score" =
      some (Val.vrat (round3 (clamp01 (rawScore (contentOf qsDict))))) ∧
    Dict.get (score_and_annotate qsDict) "annotations" =
      some (Val.vannot none none (hasTestKw (contentOf qsDict))) :=
  ⟨(C4_score_formula qsDict).1, ((C4_score_formula qsDict).2.2.2 (by decide)).1⟩

/-- Claim C5, counterexample: the claim says a record whose content has
exactly MIN_FILE_LINES - 1 newline characters is rejected by the
line-count filter; the code counts lines as newlines + 1, so such a record
has MIN_FILE_LINES lines and is accepted. -/
theorem C5_cex_nine_newlines_accepted :
    (filter_and_sanitize idHash nullSan DEDUPLICATION_SCOPE
      [("content", Val.vstr nineNl)] []).1.isSome = true := by
  decide

/-- Claim C5, amended: a blob of exactly MAX_FILE_SIZE bytes passes the
size filter and MAX_FILE_SIZE + 1 bytes fails it; a record whose content
has exactly MIN_FILE_LINES - 2 newlines (so MIN_FILE_LINES - 1 lines) is
rejected by the line-count filter, and one with MIN_FILE_LINES - 1
newlines (MIN_FILE_LINES lines) is accepted when every other filter
passes. -/
theorem C5_amended_boundaries :
    is_file_relevant ⟨"src/app.py", some MAX_FILE_SIZE, "blob"⟩ = true ∧
    is_file_relevant ⟨"src/app.py", some (MAX_FILE_SIZE + 1), "blob"⟩ = false ∧
    (∀ (hash : String → String) (san : String → Val) (scope : String)
        (r : Dict) (seen : List String),
      countNewlines (contentOf r) = MIN_FILE_LINES - 2 →
      (filter_and_sanitize hash san scope r seen).1 = none) ∧
    (∀ (hash : String → String) (san : String → Val) (scope : String)
        (r : Dict) (seen : List String),
      countNewlines (contentOf r) = MIN_FILE_LINES - 1 →
      contentOf r ≠ "" → hash (contentOf r) ∉ seen →
      (filter_and_sanitize hash san scope r seen).1.isSome = true) := by
  refine ⟨by decide, by decide, ?_, ?_⟩
  · intro hash san scope r seen hcnt
    by_cases c1 : contentOf r = ""
    · rw [filter_eq_noContent hash san scope r seen c1]
    · rw [filter_eq_fewLines hash san scope r seen c1 (by rw [hcnt]; decide)]
  · intro hash san scope r seen hcnt c1 c3
    rw [filter_eq_accept hash san scope r seen c1 (by rw [hcnt]; decide) c3]
    rfl

/-- Claim C5, witness: the amended boundaries at concrete records with
eight and nine newline characters. -/
theorem C5_amended_witness :
    (filter_and_sanitize idHash nullSan DEDUPLICATION_SCOPE
      [("content", Val.vstr eightNl)] []).1 = none ∧
    (filter_and_sanitize idHash nullSan DEDUPLICATION_SCOPE
      [("content", Val.vstr nineNl)] []).1.isSome = true :=
  ⟨C5_amended_boundaries.2.2.1 idHash nullSan DEDUPLICATION_SCOPE
      [("content", Val.vstr eightNl)] [] (by decide),
   C5_amended_boundaries.2.2.2 idHash nullSan DEDUPLICATION_SCOPE
      [("content", Val.vstr nineNl)] [] (by decide) (by decide) (by decide)⟩

/-- Claim C6, counterexample: an input of one invalid JSON line is counted
in records_read but in neither records_filtered nor records_deduplicated,
and nothing is kept, so records_read exceeds the claimed sum. -/
theorem C6_cex_junk_line_uncounted :
    ¬ ((runStage1 idHash nullSan DEDUPLICATION_SCOPE [none]).records_read =
        (runStage1 idHash nullSan DEDUPLICATION_SCOPE [none]).processed.length +
        (runStage1 idHash nullSan DEDUPLICATION_SCOPE [none]).records_filtered +
        (runStage1 idHash nullSan DEDUPLICATION_SCOPE [none]).records_deduplicated) := by
  decide

/-- Claim C6, amended: for a collision-free fingerprint, every parsed line
that yields no kept record is counted in exactly one of the filtered or
deduplicated counters according to the true drop reason, and records_read
equals kept plus filtered plus deduplicated plus the number of invalid
JSON lines (which no counter records). -/
theorem C6_amended_counters (hash : String → String) (san : String → Val)
    (hinj : Function.Injective hash) (lines : List (Option Dict)) :
    (runStage1 hash san DEDUPLICATION_SCOPE lines).records_read = lines.length ∧
    (runStage1 hash san DEDUPLICATION_SCOPE lines).processed.length =
      (classifyCounts hash lines []).1 ∧
    (runStage1 hash san DEDUPLICATION_SCOPE lines).records_filtered =
      (classifyCounts hash lines []).2.1 ∧
    (runStage1 hash san DEDUPLICATION_SCOPE lines).records_deduplicated =
      (classifyCounts hash lines []).2.2.1 ∧
    (runStage1 hash san DEDUPLICATION_SCOPE lines).records_read =
      (runStage1 hash san DEDUPLICATION_SCOPE lines).processed.length +
        (runStage1 hash san DEDUPLICATION_SCOPE lines).records_filtered +
        (runStage1 hash san DEDUPLICATION_SCOPE lines).records_deduplicated +
        (classifyCounts hash lines []).2.2.2 := by
  have h := stage1_classified hash san hinj lines initState
    (fun x hx => absurd hx (List.not_mem_nil x))
  rcases h with ⟨e1, e2, e3, e4⟩
  simp only [initState, List.length_nil] at e1 e2 e3 e4
  have hsum := classify_sum hash lines []
  simp only [runStage1, DEDUPLICATION_SCOPE, initState]
  refine ⟨?_, ?_, ?_, ?_, ?_⟩ <;> omega

/-- Claim C6, witness: the amended identity on one invalid line followed
by a duplicate pair of valid records. -/
theorem C6_amended_witness :
    (runStage1 idHash nullSan DEDUPLICATION_SCOPE
        [none, dupLine, dupLine]).records_read =
      [none, dupLine, dupLine].length ∧
    (runStage1 idHash nullSan DEDUPLICATION_SCOPE
        [none, dupLine, dupLine]).processed.length =
      (classifyCounts idHash [none, dupLine, dupLine] []).1 ∧
    (runStage1 idHash nullSan DEDUPLICATION_SCOPE
        [none, dupLine, dupLine]).records_filtered =
      (classifyCounts idHash [none, dupLine, dupLine] []).2.1 ∧
    (runStage1 idHash nullSan DEDUPLICATION_SCOPE
        [none, dupLine, dupLine]).records_deduplicated =
      (classifyCounts idHash [none, dupLine, dupLine] []).2.2.1 ∧
    (runStage1 idHash nullSan DEDUPLICATION_SCOPE
        [none, dupLine, dupLine]).records_read =
      (runStage1 idHash nullSan DEDUPLICATION_SCOPE
          [none, dupLine, dupLine]).processed.length +
        (runStage1 idHash nullSan DEDUPLICATION_SCOPE
          [none, dupLine, dupLine]).records_filtered +
        (runStage1 idHash nullSan DEDUPLICATION_SCOPE
          [none, dupLine, dupLine]).records_deduplicated +
        (classifyCounts idHash [none, dupLine, dupLine] []).2.2.2 :=
  C6_amended_counters idHash nullSan (fun _ _ h => h) [none, dupLine, dupLine]

/-- Claim C7: the filter/dedup stage is a deterministic function of the
input stream and the initial seen set: any two runs of the stage relation
from the empty initial state over the same raw stream produce identical
kept output. -/
theorem C7_stage_deterministic (hash : String → String) (san : String → Val)
    (scope : String) (lines : List (Option Dict)) (st1 st2 : PipeState)
    (h1 : StageRun hash san scope initState lines st1)
    (h2 : StageRun hash san scope initState lines st2) :
    st1.processed = st2.processed := by
  rw [stageRun_eq hash san scope lines initState st1 h1,
      stageRun_eq hash san scope lines initState st2 h2]

/-- Claim C7, witness: two runs over a concrete stream, built from the
totality of the step relation, agree on the kept output. -/
theorem C7_deterministic_witness :
    (runStage1 idHash nullSan "file" [dupLine, none]).processed =
      (runStage1 idHash nullSan "file" [dupLine, none]).processed :=
  C7_stage_deterministic idHash nullSan "file" [dupLine, none]
    (runStage1 idHash nullSan "file" [dupLine, none])
    (runStage1 idHash nullSan "file" [dupLine, none])
    (stageRun_total idHash nullSan "file" [dupLine, none] initState)
    (stageRun_total idHash nullSan "file" [dupLine, none] initState)

/-- Claim C8, counterexample: on a stream with two identical valid
records, a scope other than "file" keeps both while the global scope keeps
one, so the scope flag does change which records are kept. -/
theorem C8_cex_scope_changes_output :
    (runStage1 idHash nullSan "repo" [dupLine, dupLine]).processed ≠
      (runStage1 idHash nullSan "file" [dupLine, dupLine]).processed := by
  decide

/-- Claim C8, amended: with any scope other than "file" the fingerprint is
never inserted into the seen set, so no record is ever dropped as a
duplicate and every line passing the content and line-count filters is
kept: the flag disables deduplication instead of selecting an equivalent
semantics. -/
theorem C8_amended_scope_disables_dedup (hash : String → String)
    (san : String → Val) (scope : String) (hs : scope ≠ "file")
    (lines : List (Option Dict)) :
    (runStage1 hash san scope lines).seen = [] ∧
    (runStage1 hash san scope lines).records_deduplicated = 0 ∧
    (runStage1 hash san scope lines).processed.length =
      lines.countP passesFilters := by
  have h := stage1_noScope hash san scope hs lines initState rfl
  simpa [runStage1, initState] using h

/-- Claim C8, witness: with scope "repo" both duplicate records are kept
and the deduplication counter stays zero. -/
theorem C8_amended_witness :
    (runStage1 idHash nullSan "repo" [dupLine, dupLine]).seen = [] ∧
    (runStage1 idHash nullSan "repo" [dupLine, dupLine]).records_deduplicated = 0 ∧
    (runStage1 idHash nullSan "repo" [dupLine, dupLine]).processed.length =
      [dupLine, dupLine].countP passesFilters :=
  C8_amended_scope_disables_dedup idHash nullSan "repo" (by decide)
    [dupLine, dupLine]

/-- Claim C10, counterexample: score_and_annotate overwrites a
pre-existing quality_score field, so not every field present on an
accepted input record is preserved unchanged in the output. -/
theorem C10_cex_overwrites_quality_score :
    Dict.get (score_and_annotate qsDict) "quality_score" ≠
      Dict.get qsDict "quality_score" := by
  decide

/-- Claim C10, amended: every field other than the ones a stage writes is
preserved unchanged: filter_and_sanitize writes exactly
processed_content_hash, sanitization_findings and line_count, and
score_and_annotate writes exactly quality_score and annotations; a
pre-existing field under one of those names is overwritten rather than
preserved. -/
theorem C10_amended_frame :
    (∀ (hash : String → String) (san : String → Val) (scope : String)
        (r out : Dict) (seen seenOut : List String),
      filter_and_sanitize hash san scope r seen = (some out, seenOut) →
      ∀ k : String, k ≠ "processed_content_hash" →
        k ≠ "sanitization_findings" → k ≠ "line_count" →
        Dict.get out k = Dict.get r k) ∧
    (∀ (r : Dict) (k : String), k ≠ "quality_score" → k ≠ "annotations" →
      Dict.get (score_and_annotate r) k = Dict.get r k) := by
  constructor
  · intro hash san scope r out seen seenOut hf k h1 h2 h3
    rw [filter_some_shape hash san scope r seen out seenOut hf]
    exact annotate_get_other san r _ _ k h1 h2 h3
  · intro r k h1 h2
    exact score_get_other r k h1 h2

/-- Claim C10, witness: the content field survives both stages on concrete
records. -/
theorem C10_amended_witness :
    Dict.get (annotateRecord nullSan [("content", Val.vstr tenLines)]
        (idHash tenLines) 10) "content" =
      Dict.get [("content", Val.vstr tenLines)] "content" ∧
    Dict.get (score_and_annotate qsDict) "content" = Dict.get qsDict "content" :=
  ⟨C10_amended_frame.1 idHash nullSan "file" [("content", Val.vstr tenLines)]
      (annotateRecord nullSan [("content", Val.vstr tenLines)] (idHash tenLines) 10)
      [] [idHash tenLines] (by decide) "content" (by decide) (by decide) (by decide),
   C10_amended_frame.2 qsDict "content" (by decide) (by decide)⟩

end Tadpole
